import Mathlib

/-!
# Verification of the Amar Store inventory application

Shallow embedding of the CRUD core of `src/inventory/api.py` and
`src/inventory/ui.py` (the logging variant), together with proofs of the
specification's claims about it.

Conventions of the embedding:
* Python dict records become Lean structures; Python lists become `List`.
* Python `int` stock values become `Int` (so non-negativity is contentful).
* `datetime.now().timestamp() * 1000` is modelled by a clock function
  `clock : Nat → Nat` giving the millisecond timestamp observed at the k-th
  item creation of a submission; formatted date/timestamp strings are passed
  in as parameters (their content is never branched on by the code).
* File persistence is modelled by the in-memory mirror the code saves after
  each mutation; the history CSV is modelled as `Option (List HistoryEntry)`
  where `none` stands for a missing or unparseable file.
-/

/-- One inventory record, as built by the `new_item` dictionaries in
`api.py`/`ui.py`: keys `id, category, name, size, stock, last_updated`. -/
structure StockItem where
  id : Nat
  category : String
  name : String
  size : String
  stock : Int
  last_updated : String
deriving DecidableEq, Repr

/-- One history record, as built by `log_history` in `ui.py`: keys
`timestamp, product_name, size, action, change, final_stock`. -/
structure HistoryEntry where
  timestamp : String
  product_name : String
  size : String
  action : String
  change : Int
  final_stock : Int
deriving DecidableEq, Repr

/-- The per-session state: `st.session_state.inventory`,
`st.session_state.categories`, and the (well-formed) history file contents. -/
structure AppState where
  inventory : List StockItem
  categories : List String
  history : List HistoryEntry
deriving DecidableEq, Repr

/-- Python `str.split(',')` on the character list: cut at every comma,
keeping empty segments. -/
def splitCommas : List Char → List (List Char)
  | [] => [[]]
  | c :: rest =>
    if c = ',' then [] :: splitCommas rest
    else
      match splitCommas rest with
      | [] => [[c]]
      | t :: ts => (c :: t) :: ts

/-- Python `str.strip()`: drop leading and trailing whitespace. -/
def trimChars (l : List Char) : List Char :=
  ((l.dropWhile Char.isWhitespace).reverse.dropWhile Char.isWhitespace).reverse

/-- Python `str.lower()`, character by character. -/
def lowerStr (s : String) : String :=
  String.mk (s.toList.map Char.toLower)

/-- `[s.strip() for s in sizes_input.split(',') if s.strip()]`: split on
commas, trim whitespace, drop empty tokens. -/
def splitSizes (input : String) : List String :=
  ((splitCommas input.toList).map (fun t => String.mk (trimChars t))).filter
    (fun s => s ≠ "")

/-- Duplicate test of the New Product form (`api.py` 116, `ui.py` 136):
an item with the same name and size, both compared case-insensitively. -/
def dupNew (inv : List StockItem) (name size : String) : Bool :=
  inv.any (fun i => lowerStr i.name == lowerStr name && lowerStr i.size == lowerStr size)

/-- Duplicate test of the Add Variant form (`api.py` 161, `ui.py` 165):
the name is compared exactly, the size case-insensitively. -/
def dupVar (inv : List StockItem) (name size : String) : Bool :=
  inv.any (fun i => i.name == name && lowerStr i.size == lowerStr size)

/-- `log_history` (`ui.py` 52-76): load the existing history (`none` models a
missing or unparseable file, both of which start from the empty list), append
the one new record, re-save the whole sequence. -/
def logHistoryFile (loaded : Option (List HistoryEntry)) (e : HistoryEntry) :
    List HistoryEntry :=
  (loaded.getD []) ++ [e]

/-- A run of consecutive `log_history` calls against a well-formed history
file: each call re-reads the file just written by the previous one. -/
def appendHistory (h : List HistoryEntry) (es : List HistoryEntry) :
    List HistoryEntry :=
  es.foldl (fun acc e => logHistoryFile (some acc) e) h

/-- The creation loop shared by the New Product and Add Variant submit
handlers (`ui.py` 135-144 and 164-173): walk the size tokens in order; for
each token not flagged by the duplicate test against the current inventory,
append a fresh item whose id is the millisecond clock at this creation plus
the running in-batch count, log one history entry, and bump the count.
Returns (inventory, history, count of items created). -/
def batchCreate (dup : List StockItem → String → Bool) (category name : String)
    (stock : Int) (clock : Nat → Nat) (ts date action : String) :
    List String → List StockItem → List HistoryEntry → Nat →
    List StockItem × List HistoryEntry × Nat
  | [], inv, hist, count => (inv, hist, count)
  | size :: rest, inv, hist, count =>
    if dup inv size then
      batchCreate dup category name stock clock ts date action rest inv hist count
    else
      batchCreate dup category name stock clock ts date action rest
        (inv ++ [⟨clock count + count, category, name, size, stock, date⟩])
        (appendHistory hist [⟨ts, name, size, action, stock, stock⟩])
        (count + 1)

/-- The user actions of the logging variant's dashboard, with the
environment inputs (clock readings, formatted dates, the clicked row's
display fields) made explicit. -/
inductive Op where
  | createProduct (category name sizesInput : String) (initialStock : Int)
      (clock : Nat → Nat) (ts date : String)
  | addVariant (product sizesInput : String) (initialStock : Int)
      (clock : Nat → Nat) (ts date : String)
  | increment (itemId : Nat) (rowName rowSize ts : String)
  | decrement (itemId : Nat) (rowName rowSize ts : String)
  | deleteVariant (itemId : Nat) (rowName rowSize ts : String)
  | deleteProduct (name ts : String)
  | addCategory (name : String)
  | deleteCategory (name : String)

/-- Initial stock argument of a creation action (0 for the others). -/
def Op.initStock : Op → Int
  | .createProduct _ _ _ st _ _ _ => st
  | .addVariant _ _ st _ _ _ => st
  | _ => 0

/-- One dashboard action of the logging variant (`ui.py`):

* `createProduct` (131-148): guarded by `if new_name and sizes_input`
  (truthiness = non-emptiness), then runs the creation loop with the
  case-insensitive name duplicate test and action "Created".
* `addVariant` (159-176): guarded by `if sel_prod and new_sizes`; resolves
  the parent category from the first inventory item whose name equals the
  product exactly, defaulting to "Uncategorized"; runs the creation loop with
  the exact-name duplicate test and action "Created Variant".
* `increment` (213-219): every inventory item whose id matches gets
  `stock += 1` and one "Stock In" entry logged with the clicked row's name
  and size and the item's new stock.
* `decrement` (205-211): every matching item whose stock is `> 0` gets
  `stock -= 1` and one "Stock Out" entry; the guard precedes the log call.
* `deleteVariant` (222-226): drop every item whose id matches, log one
  "Deleted Variant" entry.
* `deleteProduct` (228-232): drop every item whose name matches, log one
  "Deleted Product" entry.
* `addCategory` (271-276): append the name if non-empty and not present.
* `deleteCategory` (281-286): `list.remove` the name (first occurrence),
  then drop every inventory item of that category; no history is logged. -/
def step (s : AppState) : Op → AppState
  | .createProduct category name sizesInput stock clock ts date =>
    if name ≠ "" ∧ sizesInput ≠ "" then
      let r := batchCreate (fun l sz => dupNew l name sz) category name stock
        clock ts date "Created" (splitSizes sizesInput) s.inventory s.history 0
      { s with inventory := r.1, history := r.2.1 }
    else s
  | .addVariant product sizesInput stock clock ts date =>
    if product ≠ "" ∧ sizesInput ≠ "" then
      let cat := ((s.inventory.find? (fun i => i.name == product)).map
        (fun i => i.category)).getD "Uncategorized"
      let r := batchCreate (fun l sz => dupVar l product sz) cat product stock
        clock ts date "Created Variant" (splitSizes sizesInput)
        s.inventory s.history 0
      { s with inventory := r.1, history := r.2.1 }
    else s
  | .increment itemId rowName rowSize ts =>
    { s with
      inventory := s.inventory.map (fun i =>
        if i.id = itemId then { i with stock := i.stock + 1 } else i),
      history := appendHistory s.history
        ((s.inventory.filter (fun i => i.id = itemId)).map (fun i =>
          ⟨ts, rowName, rowSize, "Stock In", 1, i.stock + 1⟩)) }
  | .decrement itemId rowName rowSize ts =>
    { s with
      inventory := s.inventory.map (fun i =>
        if i.id = itemId ∧ i.stock > 0 then { i with stock := i.stock - 1 } else i),
      history := appendHistory s.history
        ((s.inventory.filter (fun i => i.id = itemId ∧ i.stock > 0)).map (fun i =>
          ⟨ts, rowName, rowSize, "Stock Out", -1, i.stock - 1⟩)) }
  | .deleteVariant itemId rowName rowSize ts =>
    { s with
      inventory := s.inventory.filter (fun i => i.id ≠ itemId),
      history := appendHistory s.history
        [⟨ts, rowName, rowSize, "Deleted Variant", 0, 0⟩] }
  | .deleteProduct name ts =>
    { s with
      inventory := s.inventory.filter (fun i => i.name ≠ name),
      history := appendHistory s.history
        [⟨ts, name, "ALL", "Deleted Product", 0, 0⟩] }
  | .addCategory name =>
    if name ≠ "" ∧ name ∉ s.categories then
      { s with categories := s.categories ++ [name] }
    else s
  | .deleteCategory name =>
    { s with
      categories := s.categories.erase name,
      inventory := s.inventory.filter (fun i => i.category ≠ name) }

/-- A session: fold the actions over the state, left to right. -/
def run (s : AppState) (ops : List Op) : AppState :=
  ops.foldl step s

/-- Outcome a submit handler reports to the user. -/
inductive Feedback where
  | success (count : Nat)
  | warning
deriving DecidableEq, Repr

/-- The New Product submit handler of the base variant (`api.py` 107-136):
if the name, the sizes input and the category list are all non-empty
(Python truthiness), run the creation loop (this variant logs no history),
save the inventory and report success with the created count; otherwise show
a warning and change nothing. Returns (inventory, whether `save_inventory`
was called, feedback). -/
def createProductSubmitApi (category name sizesInput : String) (stock : Int)
    (clock : Nat → Nat) (date : String) (cats : List String)
    (inv : List StockItem) : List StockItem × Bool × Feedback :=
  if name ≠ "" ∧ sizesInput ≠ "" ∧ cats ≠ [] then
    let r := batchCreate (fun l sz => dupNew l name sz) category name stock
      clock "" date "" (splitSizes sizesInput) inv [] 0
    (r.1, true, .success r.2.2)
  else (inv, false, .warning)

/-- The Add Category button handler (`api.py` 277-285): with a non-empty
input, append the name unless it is already present exactly, in which case
warn; an empty input does nothing at all (no warning). Returns (categories,
whether `save_categories` was called, feedback if any). -/
def addCategorySubmitApi (name : String) (cats : List String) :
    List String × Bool × Option Feedback :=
  if name ≠ "" then
    if name ∈ cats then (cats, false, some .warning)
    else (cats ++ [name], true, some (.success 1))
  else (cats, false, none)

/-- The Delete category button handler (`api.py` 294-307): `list.remove` the
name from the categories (first occurrence), drop every inventory item whose
category equals it, and report `before_count - len(after)` items deleted.
Returns (categories, inventory, deleted count). -/
def deleteCategoryApi (cat : String) (cats : List String)
    (inv : List StockItem) : List String × List StockItem × Nat :=
  let cats2 := cats.erase cat
  let inv2 := inv.filter (fun i => i.category ≠ cat)
  (cats2, inv2, inv.length - inv2.length)

/-- Substring test, Python's `needle in hay` on strings. -/
def strContains (hay needle : String) : Bool :=
  decide (needle.toList <:+: hay.toList)

/-- The string forms of a row's six field values (`str` of each value). -/
def fieldStrings (i : StockItem) : List String :=
  [toString i.id, i.category, i.name, i.size, toString i.stock, i.last_updated]

/-- The string form of one inventory row as the search lambda sees it
(`str(x)` for a pandas row in `api.py` 197 / `ui.py` 184): each field label
followed by the field value, one field per line. The exact column padding of
the pandas rendering and its trailing index/dtype line are elided; what
matters to the embedding is that the labels and the values both occur in the
string, in this order. -/
def rowStr (i : StockItem) : String :=
  "id " ++ toString i.id ++ "\ncategory " ++ i.category ++ "\nname " ++ i.name
    ++ "\nsize " ++ i.size ++ "\nstock " ++ toString i.stock
    ++ "\nlast_updated " ++ i.last_updated

/-- The search filter (`api.py` 196-198, `ui.py` 183-185): a non-empty query
keeps the rows whose whole-row string form contains the lower-cased query,
case-insensitively; an empty query leaves the list untouched. -/
def searchFilter (q : String) (items : List StockItem) : List StockItem :=
  if q = "" then items
  else items.filter (fun i => strContains (lowerStr (rowStr i)) (lowerStr q))

/-- Modelled from the spec: the search rule as §4.2 words it — "case-
insensitive substring match against the string form of every field"; an item
matches when the lower-cased query is a substring of some field value's
string form (or the query is empty). Stated for comparison with
`searchFilter`, which is what the code does. -/
def specFieldMatch (q : String) (i : StockItem) : Bool :=
  q == "" || (fieldStrings i).any (fun f => strContains (lowerStr f) (lowerStr q))

/-- Pandas `unique()`, with an explicit seen-set accumulator: keep each
value's first occurrence, in order of appearance. -/
def firstSeenAux (seen : List String) : List String → List String
  | [] => []
  | a :: rest =>
    if a ∈ seen then firstSeenAux seen rest
    else a :: firstSeenAux (seen ++ [a]) rest

/-- Pandas `unique()`: the distinct values in first-seen order. -/
def firstSeen (l : List String) : List String :=
  firstSeenAux [] l

/-- Insert into a list already sorted by ascending id. -/
def insertById (x : StockItem) : List StockItem → List StockItem
  | [] => [x]
  | y :: ys => if x.id < y.id then x :: y :: ys else y :: insertById x ys

/-- `sort_values('id')`: sort the variants by ascending id. -/
def sortById : List StockItem → List StockItem
  | [] => []
  | x :: xs => insertById x (sortById xs)

/-- One product card of the dashboard: the product name, its variant rows
sorted by ascending id, and the displayed total stock (computed from the
sorted variants, as the code does). -/
def productGroup (catItems : List StockItem) (n : String) :
    String × List StockItem × Int :=
  let pvars := sortById (catItems.filter (fun i => i.name = n))
  (n, pvars, (pvars.map (fun i => i.stock)).sum)

/-- The grouped dashboard rendering (`api.py` 200-214, `ui.py` 187-195):
categories in first-seen order; within a category, product names in
first-seen order; within a product, variants sorted by ascending id, with
`totalStock` the sum of those variants' stock. -/
def groupedView (items : List StockItem) :
    List (String × List (String × List StockItem × Int)) :=
  (firstSeen (items.map (fun i => i.category))).map (fun cat =>
    let catItems := items.filter (fun i => i.category = cat)
    (cat, (firstSeen (catItems.map (fun i => i.name))).map
      (productGroup catItems)))

/-- Accumulator-style first-occurrence-per-key dedup: keep a token when its
lower-cased form has not been seen yet. -/
def keepFirstByLower (seen : List String) : List String → List String
  | [] => []
  | s :: rest =>
    if lowerStr s ∈ seen then keepFirstByLower seen rest
    else s :: keepFirstByLower (seen ++ [lowerStr s]) rest

/-- Modelled from the spec: `distinctNewSizes` as §8 words it — the size
tokens (split, trimmed, non-empty) that are new relative to the inventory
under the case-insensitive (name, size) duplicate test, keeping the first
occurrence of each case-insensitive size. Stated for comparison with the
creation loop's behavior. -/
def distinctNewSizes (inv : List StockItem) (name : String)
    (tokens : List String) : List String :=
  keepFirstByLower [] (tokens.filter (fun s => !dupNew inv name s))

/-! ## Basic lemmas about the embedding -/

theorem appendHistory_eq (h : List HistoryEntry) (es : List HistoryEntry) :
    appendHistory h es = h ++ es := by
  induction es generalizing h with
  | nil => simp [appendHistory]
  | cons e es ih =>
    show appendHistory (logHistoryFile (some h) e) es = _
    rw [show logHistoryFile (some h) e = h ++ [e] from rfl, ih]
    simp

/-- Every item in the inventory produced by the creation loop either was
already there or carries the submitted initial stock. -/
theorem batchCreate_mem (dup : List StockItem → String → Bool)
    (category name : String) (stock : Int) (clock : Nat → Nat)
    (ts date action : String) (sizes : List String) :
    ∀ (inv : List StockItem) (hist : List HistoryEntry) (count : Nat),
      ∀ x ∈ (batchCreate dup category name stock clock ts date action
          sizes inv hist count).1, x ∈ inv ∨ x.stock = stock := by
  induction sizes with
  | nil => intro inv hist count x hx; exact .inl hx
  | cons size rest ih =>
    intro inv hist count x hx
    simp only [batchCreate] at hx
    split at hx
    · exact ih inv hist count x hx
    · rcases ih _ _ _ x hx with h | h
      · rcases List.mem_append.1 h with h | h
        · exact .inl h
        · right
          simp only [List.mem_singleton] at h
          rw [h]
      · exact .inr h

/-- One action preserves non-negativity of every stock, provided the
creation actions carry a non-negative initial stock. -/
theorem step_stock_nonneg (s : AppState) (op : Op)
    (hs : ∀ i ∈ s.inventory, 0 ≤ i.stock) (hop : 0 ≤ op.initStock) :
    ∀ i ∈ (step s op).inventory, 0 ≤ i.stock := by
  cases op with
  | createProduct category name sizesInput stock clock ts date =>
    simp only [Op.initStock] at hop
    simp only [step]
    split
    · intro i hi
      rcases batchCreate_mem _ _ _ _ _ _ _ _ _ _ _ _ i hi with h | h
      · exact hs i h
      · rw [h]; exact hop
    · exact hs
  | addVariant product sizesInput stock clock ts date =>
    simp only [Op.initStock] at hop
    simp only [step]
    split
    · intro i hi
      rcases batchCreate_mem _ _ _ _ _ _ _ _ _ _ _ _ i hi with h | h
      · exact hs i h
      · rw [h]; exact hop
    · exact hs
  | increment itemId rowName rowSize ts =>
    intro i hi
    simp only [step, List.mem_map] at hi
    obtain ⟨j, hj, rfl⟩ := hi
    split
    · have := hs j hj; simp; omega
    · exact hs j hj
  | decrement itemId rowName rowSize ts =>
    intro i hi
    simp only [step, List.mem_map] at hi
    obtain ⟨j, hj, hji⟩ := hi
    by_cases h : j.id = itemId ∧ j.stock > 0
    · rw [if_pos h] at hji
      rw [← hji]
      simp only []
      omega
    · rw [if_neg h] at hji
      rw [← hji]
      exact hs j hj
  | deleteVariant itemId rowName rowSize ts =>
    intro i hi
    simp only [step, List.mem_filter] at hi
    exact hs i hi.1
  | deleteProduct name ts =>
    intro i hi
    simp only [step, List.mem_filter] at hi
    exact hs i hi.1
  | addCategory name =>
    simp only [step]
    split
    · exact hs
    · exact hs
  | deleteCategory name =>
    intro i hi
    simp only [step, List.mem_filter] at hi
    exact hs i hi.1

theorem run_stock_nonneg (ops : List Op) (s : AppState)
    (hs : ∀ i ∈ s.inventory, 0 ≤ i.stock)
    (hops : ∀ op ∈ ops, 0 ≤ op.initStock) :
    ∀ i ∈ (run s ops).inventory, 0 ≤ i.stock := by
  induction ops generalizing s with
  | nil => exact hs
  | cons op ops ih =>
    exact ih (step s op)
      (step_stock_nonneg s op hs (hops op (List.mem_cons_self op ops)))
      (fun o ho => hops o (List.mem_cons_of_mem op ho))

/-- **C1**: starting from an inventory whose stocks are all non-negative,
any sequence of actions whose creation inputs are non-negative keeps every
stock ≥ 0; the increment button adds one to every matching item
unconditionally; and the decrement button applied when every matching item
has stock 0 is a silent no-op: the state — inventory and history alike — is
left exactly as it was, so no history entry is appended (the stock > 0 guard
precedes the `log_history` call). -/
theorem c1_stock_invariant_and_adjust
    (s : AppState) (ops : List Op) (itemId : Nat) (rn rs ts : String)
    (hinv : ∀ i ∈ s.inventory, 0 ≤ i.stock)
    (hops : ∀ op ∈ ops, 0 ≤ op.initStock)
    (hzero : ∀ i ∈ s.inventory, i.id = itemId → i.stock = 0) :
    (∀ i ∈ (run s ops).inventory, 0 ≤ i.stock)
    ∧ (∀ (s2 : AppState) (id2 : Nat) (rn2 rs2 ts2 : String),
        ∀ i ∈ s2.inventory, i.id = id2 →
          { i with stock := i.stock + 1 } ∈
            (step s2 (.increment id2 rn2 rs2 ts2)).inventory)
    ∧ step s (.decrement itemId rn rs ts) = s := by
  refine ⟨run_stock_nonneg ops s hinv hops, ?_, ?_⟩
  · intro s2 id2 rn2 rs2 ts2 i hi hid
    simp only [step, List.mem_map]
    exact ⟨i, hi, by rw [if_pos hid]⟩
  · have hmap : s.inventory.map (fun i =>
        if i.id = itemId ∧ i.stock > 0 then { i with stock := i.stock - 1 } else i)
        = s.inventory := by
      have heach : s.inventory.map (fun i =>
          if i.id = itemId ∧ i.stock > 0 then { i with stock := i.stock - 1 } else i)
          = s.inventory.map id := by
        refine List.map_congr_left ?_
        intro i hi
        have hneg : ¬(i.id = itemId ∧ i.stock > 0) := by
          rintro ⟨h1, h2⟩
          rw [hzero i hi h1] at h2
          exact absurd h2 (by norm_num)
        rw [if_neg hneg]
        rfl
      rw [heach, List.map_id]
    have hfil : s.inventory.filter (fun i => decide (i.id = itemId ∧ i.stock > 0)) = [] := by
      rw [List.filter_eq_nil_iff]
      intro i hi
      simp only [decide_eq_true_eq, not_and, not_lt]
      intro h1
      rw [hzero i hi h1]
    simp only [step, hmap, hfil, List.map_nil, appendHistory_eq, List.append_nil]

theorem dupNew_append (l1 l2 : List StockItem) (name sz : String) :
    dupNew (l1 ++ l2) name sz = (dupNew l1 name sz || dupNew l2 name sz) :=
  List.any_append

theorem dupVar_append (l1 l2 : List StockItem) (name sz : String) :
    dupVar (l1 ++ l2) name sz = (dupVar l1 name sz || dupVar l2 name sz) :=
  List.any_append

theorem any_congr_mem {α : Type} (l : List α) (f g : α → Bool)
    (h : ∀ x ∈ l, f x = g x) : l.any f = l.any g := by
  induction l with
  | nil => rfl
  | cons a t ih =>
    simp only [List.any_cons]
    rw [h a (List.mem_cons_self a t),
      ih (fun x hx => h x (List.mem_cons_of_mem a hx))]

/-- Both duplicate tests, applied to an extension of the inventory by items
that all carry the submitted product name, decompose into the test on the
old inventory and a case-insensitive size comparison over the new items. -/
theorem dupNew_decompose (l extra : List StockItem) (name sz : String)
    (h : ∀ x ∈ extra, x.name = name) :
    dupNew (l ++ extra) name sz
      = (dupNew l name sz || extra.any (fun x => lowerStr x.size == lowerStr sz)) := by
  rw [dupNew_append]
  congr 1
  refine any_congr_mem extra _ _ ?_
  intro x hx
  rw [h x hx, beq_self_eq_true, Bool.true_and]

theorem dupVar_decompose (l extra : List StockItem) (name sz : String)
    (h : ∀ x ∈ extra, x.name = name) :
    dupVar (l ++ extra) name sz
      = (dupVar l name sz || extra.any (fun x => lowerStr x.size == lowerStr sz)) := by
  rw [dupVar_append]
  congr 1
  refine any_congr_mem extra _ _ ?_
  intro x hx
  rw [h x hx, beq_self_eq_true, Bool.true_and]

/-- What one submission's creation loop appends: exactly one item per size
token that passes the duplicate test against the starting inventory, keeping
the first occurrence of each case-insensitive size, each item carrying the
submitted category, name and stock. -/
theorem batchCreate_spec (dup : List StockItem → String → Bool)
    (category name : String) (stock : Int) (clock : Nat → Nat)
    (ts date action : String)
    (hdup : ∀ (l extra : List StockItem) (sz : String),
      (∀ x ∈ extra, x.name = name) →
      dup (l ++ extra) sz
        = (dup l sz || extra.any (fun x => lowerStr x.size == lowerStr sz)))
    (inv0 : List StockItem) (tokens : List String) :
    ∀ (created : List StockItem) (hist : List HistoryEntry) (count : Nat),
      (∀ x ∈ created, x.name = name) →
      ∃ newItems,
        (batchCreate dup category name stock clock ts date action tokens
            (inv0 ++ created) hist count).1 = inv0 ++ created ++ newItems
        ∧ newItems.map (fun x => x.size)
            = keepFirstByLower (created.map (fun x => lowerStr x.size))
                (tokens.filter (fun sz => !dup inv0 sz))
        ∧ ∀ x ∈ newItems,
            x.category = category ∧ x.name = name ∧ x.stock = stock := by
  induction tokens with
  | nil =>
    intro created hist count hc
    exact ⟨[], by simp [batchCreate], by simp [keepFirstByLower], by simp⟩
  | cons sz rest ih =>
    intro created hist count hc
    simp only [batchCreate]
    rw [hdup inv0 created sz hc]
    by_cases h1 : dup inv0 sz = true
    · rw [h1]
      simp only [Bool.true_or, if_true]
      have hf : (sz :: rest).filter (fun t => !dup inv0 t)
          = rest.filter (fun t => !dup inv0 t) := by
        simp [List.filter_cons, h1]
      rw [hf]
      exact ih created hist count hc
    · rw [Bool.not_eq_true] at h1
      rw [h1]
      simp only [Bool.false_or]
      have hf : (sz :: rest).filter (fun t => !dup inv0 t)
          = sz :: rest.filter (fun t => !dup inv0 t) := by
        simp [List.filter_cons, h1]
      rw [hf]
      by_cases h2 : created.any (fun x => lowerStr x.size == lowerStr sz) = true
      · rw [h2]
        simp only [if_true]
        have hseen : lowerStr sz ∈ created.map (fun x => lowerStr x.size) := by
          rw [List.any_eq_true] at h2
          obtain ⟨x, hx, he⟩ := h2
          rw [beq_iff_eq] at he
          exact List.mem_map.2 ⟨x, hx, he⟩
        obtain ⟨newItems, g1, g2, g3⟩ := ih created hist count hc
        refine ⟨newItems, g1, ?_, g3⟩
        rw [g2]
        simp [keepFirstByLower, hseen]
      · rw [Bool.not_eq_true] at h2
        rw [h2]
        rw [if_neg Bool.false_ne_true]
        have hnotseen : lowerStr sz ∉ created.map (fun x => lowerStr x.size) := by
          intro hmem
          obtain ⟨x, hx, he⟩ := List.mem_map.1 hmem
          have : created.any (fun x => lowerStr x.size == lowerStr sz) = true :=
            List.any_eq_true.2 ⟨x, hx, by simp [he]⟩
          rw [h2] at this
          exact Bool.false_ne_true this
        have hassoc : (inv0 ++ created)
              ++ [⟨clock count + count, category, name, sz, stock, date⟩]
            = inv0 ++ (created ++ [⟨clock count + count, category, name, sz, stock, date⟩]) := by
          rw [List.append_assoc]
        rw [hassoc]
        have hc2 : ∀ x ∈ created ++ [(⟨clock count + count, category, name, sz, stock, date⟩ : StockItem)],
            x.name = name := by
          intro x hx
          rcases List.mem_append.1 hx with hx | hx
          · exact hc x hx
          · simp only [List.mem_singleton] at hx
            rw [hx]
        obtain ⟨newItems, g1, g2, g3⟩ := ih
          (created ++ [⟨clock count + count, category, name, sz, stock, date⟩])
          (appendHistory hist [⟨ts, name, sz, action, stock, stock⟩]) (count + 1) hc2
        refine ⟨⟨clock count + count, category, name, sz, stock, date⟩ :: newItems, ?_, ?_, ?_⟩
        · rw [g1]
          simp [List.append_assoc]
        · simp only [List.map_cons]
          rw [g2]
          simp only [List.map_append, List.map_cons, List.map_nil]
          rw [keepFirstByLower]
          simp only [hnotseen, if_false]
        · intro x hx
          rcases List.mem_cons.1 hx with rfl | hx
          · exact ⟨rfl, rfl, rfl⟩
          · exact g3 x hx

/-- If every size token is flagged as a duplicate, the creation loop changes
nothing and reports a created count of 0 (relative to its starting count). -/
theorem batchCreate_all_dup (dup : List StockItem → String → Bool)
    (category name : String) (stock : Int) (clock : Nat → Nat)
    (ts date action : String) (tokens : List String) :
    ∀ (inv : List StockItem) (hist : List HistoryEntry) (count : Nat),
      (∀ sz ∈ tokens, dup inv sz = true) →
      batchCreate dup category name stock clock ts date action tokens inv hist count
        = (inv, hist, count) := by
  induction tokens with
  | nil => intro inv hist count _; rfl
  | cons sz rest ih =>
    intro inv hist count hall
    simp only [batchCreate]
    rw [hall sz (List.mem_cons_self sz rest)]
    simp only [if_true]
    exact ih inv hist count (fun t ht => hall t (List.mem_cons_of_mem sz ht))

/-- Every token fed to `keepFirstByLower` is represented in its output by an
element with the same case-insensitive key, unless the key was seen before. -/
theorem keepFirstByLower_covers (s : String) :
    ∀ (seen : List String) (l : List String), s ∈ l →
      lowerStr s ∈ seen
      ∨ ∃ u ∈ keepFirstByLower seen l, lowerStr u = lowerStr s := by
  intro seen l
  induction l generalizing seen with
  | nil => intro h; exact absurd h (List.not_mem_nil s)
  | cons a rest ih =>
    intro hs
    rcases List.mem_cons.1 hs with rfl | hs
    · by_cases h : lowerStr s ∈ seen
      · exact .inl h
      · right
        exact ⟨s, by simp [keepFirstByLower, h], rfl⟩
    · by_cases h : lowerStr a ∈ seen
      · rcases ih seen hs with h1 | ⟨u, hu, he⟩
        · exact .inl h1
        · right
          exact ⟨u, by simp [keepFirstByLower, h]; exact hu, he⟩
      · rcases ih (seen ++ [lowerStr a]) hs with h1 | ⟨u, hu, he⟩
        · rcases List.mem_append.1 h1 with h1 | h1
          · exact .inl h1
          · simp only [List.mem_singleton] at h1
            right
            exact ⟨a, by simp [keepFirstByLower, h], h1.symm⟩
        · right
          refine ⟨u, ?_, he⟩
          simp only [keepFirstByLower, h, if_false]
          exact List.mem_cons_of_mem a hu

/-- Resolved form of one New Product submission that passes the
non-emptiness guard. -/
theorem step_createProduct_eq (s : AppState) (category name sizesInput : String)
    (stock : Int) (clock : Nat → Nat) (ts date : String)
    (hname : name ≠ "") (hsizes : sizesInput ≠ "") :
    step s (.createProduct category name sizesInput stock clock ts date)
      = { s with
          inventory := (batchCreate (fun l sz => dupNew l name sz) category name
            stock clock ts date "Created" (splitSizes sizesInput)
            s.inventory s.history 0).1,
          history := (batchCreate (fun l sz => dupNew l name sz) category name
            stock clock ts date "Created" (splitSizes sizesInput)
            s.inventory s.history 0).2.1 } := by
  simp only [step]
  rw [if_pos (show name ≠ "" ∧ sizesInput ≠ "" from ⟨hname, hsizes⟩)]

/-- After one New Product submission, every size token of the same
submission is flagged as a duplicate. -/
theorem dupNew_after_create (inv0 newItems : List StockItem) (name : String)
    (tokens : List String)
    (hsizes : newItems.map (fun x => x.size)
      = keepFirstByLower [] (tokens.filter (fun sz => !dupNew inv0 name sz)))
    (hnames : ∀ x ∈ newItems, x.name = name) :
    ∀ t ∈ tokens, dupNew (inv0 ++ newItems) name t = true := by
  intro t ht
  rw [dupNew_append]
  by_cases h1 : dupNew inv0 name t = true
  · rw [h1, Bool.true_or]
  · rw [Bool.not_eq_true] at h1
    have htf : t ∈ tokens.filter (fun sz => !dupNew inv0 name sz) :=
      List.mem_filter.2 ⟨ht, by rw [h1]; rfl⟩
    rcases keepFirstByLower_covers t [] _ htf with habs | ⟨u, hu, he⟩
    · exact absurd habs (List.not_mem_nil _)
    · rw [← hsizes] at hu
      obtain ⟨x, hx, hxu⟩ := List.mem_map.1 hu
      have : dupNew newItems name t = true := by
        refine List.any_eq_true.2 ⟨x, hx, ?_⟩
        rw [hnames x hx, hxu, he]
        simp
      rw [this, Bool.or_true]

/-- **C2**: a New Product submission with non-empty name and sizes appends
to the inventory exactly one item per distinct new size (split on commas,
trimmed, empties dropped, first occurrence of each case-insensitive size
kept, sizes already present for that name case-insensitively skipped), each
new item carrying the submitted category, name and stock; re-submitting the
same arguments is a complete no-op (the state does not change), and the base
variant's handler then reports success with a created count of 0. -/
theorem c2_createProduct (category name sizesInput : String) (stock : Int)
    (clock clock2 : Nat → Nat) (ts ts2 date date2 : String) (s : AppState)
    (hname : name ≠ "") (hsizes : sizesInput ≠ "") :
    (∃ created,
      (step s (.createProduct category name sizesInput stock clock ts date)).inventory
        = s.inventory ++ created
      ∧ created.map (fun x => x.size)
          = distinctNewSizes s.inventory name (splitSizes sizesInput)
      ∧ created.length
          = (distinctNewSizes s.inventory name (splitSizes sizesInput)).length
      ∧ ∀ x ∈ created, x.category = category ∧ x.name = name ∧ x.stock = stock)
    ∧ step (step s (.createProduct category name sizesInput stock clock ts date))
        (.createProduct category name sizesInput stock clock2 ts2 date2)
      = step s (.createProduct category name sizesInput stock clock ts date)
    ∧ ∀ cats : List String, cats ≠ [] →
        createProductSubmitApi category name sizesInput stock clock2 date2 cats
          (step s (.createProduct category name sizesInput stock clock ts date)).inventory
        = ((step s (.createProduct category name sizesInput stock clock ts date)).inventory,
            true, .success 0) := by
  obtain ⟨newItems, g1, g2, g3⟩ := batchCreate_spec
    (fun l sz => dupNew l name sz) category name stock clock ts date "Created"
    (fun l extra sz h => dupNew_decompose l extra name sz h)
    s.inventory (splitSizes sizesInput) [] s.history 0
    (by intro x hx; exact absurd hx (List.not_mem_nil x))
  simp only [List.append_nil] at g1
  simp only [List.map_nil] at g2
  have hstep := step_createProduct_eq s category name sizesInput stock clock ts
    date hname hsizes
  have hinv : (step s (.createProduct category name sizesInput stock clock ts
      date)).inventory = s.inventory ++ newItems := by
    rw [hstep]
    exact g1
  have halldup : ∀ t ∈ splitSizes sizesInput,
      dupNew (s.inventory ++ newItems) name t = true :=
    dupNew_after_create s.inventory newItems name (splitSizes sizesInput) g2
      (fun x hx => (g3 x hx).2.1)
  refine ⟨⟨newItems, hinv, g2,
    by unfold distinctNewSizes; rw [← g2, List.length_map], g3⟩, ?_, ?_⟩
  · rw [step_createProduct_eq _ category name sizesInput stock clock2 ts2 date2
      hname hsizes]
    rw [batchCreate_all_dup _ category name stock clock2 ts2 date2 "Created"
      (splitSizes sizesInput) _ _ 0 (by rw [hinv]; exact halldup)]
  · intro cats hcats
    unfold createProductSubmitApi
    rw [if_pos (show name ≠ "" ∧ sizesInput ≠ "" ∧ cats ≠ [] from
      ⟨hname, hsizes, hcats⟩)]
    rw [batchCreate_all_dup _ category name stock clock2 "" date2 ""
      (splitSizes sizesInput) _ [] 0 (by rw [hinv]; exact halldup)]

/-- Concrete instance of C2: submitting "S, M, M" to an empty inventory and
immediately re-submitting the same form changes nothing the second time. -/
theorem c2_witness :
    step (step ⟨[], ["Helmets"], []⟩
        (.createProduct "Helmets" "Yellow Helmet" "S, M, M" 10 (fun k => k) "t" "d"))
      (.createProduct "Helmets" "Yellow Helmet" "S, M, M" 10 (fun k => k + 9) "t2" "d2")
    = step ⟨[], ["Helmets"], []⟩
        (.createProduct "Helmets" "Yellow Helmet" "S, M, M" 10 (fun k => k) "t" "d") :=
  (c2_createProduct "Helmets" "Yellow Helmet" "S, M, M" 10 (fun k => k)
    (fun k => k + 9) "t" "t2" "d" "d2" ⟨[], ["Helmets"], []⟩
    (by decide) (by decide)).2.1

/-- Resolved form of one Add Variant submission that passes the
non-emptiness guard. -/
theorem step_addVariant_eq (s : AppState) (product sizesInput : String)
    (stock : Int) (clock : Nat → Nat) (ts date : String)
    (hp : product ≠ "") (hs : sizesInput ≠ "") :
    step s (.addVariant product sizesInput stock clock ts date)
      = { s with
          inventory := (batchCreate (fun l sz => dupVar l product sz)
            (((s.inventory.find? (fun i => i.name == product)).map
              (fun i => i.category)).getD "Uncategorized")
            product stock clock ts date "Created Variant" (splitSizes sizesInput)
            s.inventory s.history 0).1,
          history := (batchCreate (fun l sz => dupVar l product sz)
            (((s.inventory.find? (fun i => i.name == product)).map
              (fun i => i.category)).getD "Uncategorized")
            product stock clock ts date "Created Variant" (splitSizes sizesInput)
            s.inventory s.history 0).2.1 } := by
  simp only [step]
  rw [if_pos (show product ≠ "" ∧ sizesInput ≠ "" from ⟨hp, hs⟩)]

/-- **C4 (amended)**: an Add Variant submission resolves the new items'
category from the first inventory item whose name equals the selected
product exactly (falling back to "Uncategorized" if none matches), and skips
a size token exactly when an item with the **exact same** name and a
case-insensitively equal size already exists — unlike CreateProduct, whose
duplicate test also compares the name case-insensitively. -/
theorem c4_addVariant (product sizesInput : String) (stock : Int)
    (clock : Nat → Nat) (ts date : String) (s : AppState)
    (hp : product ≠ "") (hs : sizesInput ≠ "") :
    ∃ created,
      (step s (.addVariant product sizesInput stock clock ts date)).inventory
        = s.inventory ++ created
      ∧ created.map (fun x => x.size)
          = keepFirstByLower [] ((splitSizes sizesInput).filter
              (fun t => !dupVar s.inventory product t))
      ∧ ∀ x ∈ created,
          x.category = ((s.inventory.find? (fun i => i.name == product)).map
            (fun i => i.category)).getD "Uncategorized"
          ∧ x.name = product ∧ x.stock = stock := by
  obtain ⟨newItems, g1, g2, g3⟩ := batchCreate_spec
    (fun l sz => dupVar l product sz)
    (((s.inventory.find? (fun i => i.name == product)).map
      (fun i => i.category)).getD "Uncategorized")
    product stock clock ts date "Created Variant"
    (fun l extra sz h => dupVar_decompose l extra product sz h)
    s.inventory (splitSizes sizesInput) [] s.history 0
    (by intro x hx; exact absurd hx (List.not_mem_nil x))
  simp only [List.append_nil] at g1
  simp only [List.map_nil] at g2
  refine ⟨newItems, ?_, g2, g3⟩
  rw [step_addVariant_eq s product sizesInput stock clock ts date hp hs]
  exact g1

/-- Concrete instance of the amended C4: adding size "L" to the existing
"Yellow Helmet" product inherits the category "Helmets". -/
theorem c4_witness :
    ∃ created,
      (step ⟨[⟨1, "Helmets", "Yellow Helmet", "M", 10, "d"⟩], ["Helmets"], []⟩
          (.addVariant "Yellow Helmet" "L" 5 (fun k => 50 + k) "t" "d")).inventory
        = [⟨1, "Helmets", "Yellow Helmet", "M", 10, "d"⟩] ++ created
      ∧ created.map (fun x => x.size)
          = keepFirstByLower [] ((splitSizes "L").filter
              (fun t => !dupVar [⟨1, "Helmets", "Yellow Helmet", "M", 10, "d"⟩]
                "Yellow Helmet" t))
      ∧ ∀ x ∈ created,
          x.category = ((([⟨1, "Helmets", "Yellow Helmet", "M", 10, "d"⟩] :
              List StockItem).find? (fun i => i.name == "Yellow Helmet")).map
            (fun i => i.category)).getD "Uncategorized"
          ∧ x.name = "Yellow Helmet" ∧ x.stock = 5 :=
  c4_addVariant "Yellow Helmet" "L" 5 (fun k => 50 + k) "t" "d"
    ⟨[⟨1, "Helmets", "Yellow Helmet", "M", 10, "d"⟩], ["Helmets"], []⟩
    (by decide) (by decide)

/-- C4 as frozen is false: after creating "helmet"/M and "Helmet"/L through
the New Product form, a StockItem with name "Helmet" and size "M" exists
case-insensitively (namely "helmet"/M, as `dupNew` reports), so by the
claimed CreateProduct skip rule AddVariant("Helmet", "M") would create
nothing — but the code's exact-name test misses it and appends a third item,
growing the inventory from 2 to 3. -/
theorem c4_counterexample :
    dupNew (run ⟨[], ["Gloves"], []⟩
        [.createProduct "Gloves" "helmet" "M" 1 (fun _ => 1) "t" "d",
         .createProduct "Gloves" "Helmet" "L" 1 (fun _ => 2) "t" "d"]).inventory
        "Helmet" "M" = true
    ∧ (run ⟨[], ["Gloves"], []⟩
        [.createProduct "Gloves" "helmet" "M" 1 (fun _ => 1) "t" "d",
         .createProduct "Gloves" "Helmet" "L" 1 (fun _ => 2) "t" "d"]).inventory.length
      = 2
    ∧ (step (run ⟨[], ["Gloves"], []⟩
        [.createProduct "Gloves" "helmet" "M" 1 (fun _ => 1) "t" "d",
         .createProduct "Gloves" "Helmet" "L" 1 (fun _ => 2) "t" "d"])
        (.addVariant "Helmet" "M" 1 (fun _ => 3) "t" "d")).inventory.length
      = 3 := by decide

/-- Inside one submission, the creation loop appends items whose ids
strictly increase: the k-th creation gets `clock k + k`, and a
non-decreasing millisecond clock makes these strictly increasing. -/
theorem batchCreate_ids_increasing (dup : List StockItem → String → Bool)
    (category name : String) (stock : Int) (clock : Nat → Nat)
    (ts date action : String)
    (hmono : ∀ j k, j ≤ k → clock j ≤ clock k) (sizes : List String) :
    ∀ (inv : List StockItem) (hist : List HistoryEntry) (count : Nat),
      ∃ created,
        (batchCreate dup category name stock clock ts date action
            sizes inv hist count).1 = inv ++ created
        ∧ List.Pairwise (fun a b => a.id < b.id) created
        ∧ ∀ x ∈ created, clock count + count ≤ x.id := by
  induction sizes with
  | nil =>
    intro inv hist count
    exact ⟨[], by simp [batchCreate], List.Pairwise.nil, by simp⟩
  | cons size rest ih =>
    intro inv hist count
    simp only [batchCreate]
    split
    · exact ih inv hist count
    · obtain ⟨created, h1, h2, h3⟩ :=
        ih (inv ++ [⟨clock count + count, category, name, size, stock, date⟩])
          (appendHistory hist [⟨ts, name, size, action, stock, stock⟩]) (count + 1)
      have hcc : clock count ≤ clock (count + 1) :=
        hmono count (count + 1) (Nat.le_succ count)
      refine ⟨⟨clock count + count, category, name, size, stock, date⟩ :: created,
        ?_, ?_, ?_⟩
      · rw [h1, List.append_assoc]
        rfl
      · refine List.Pairwise.cons ?_ h2
        intro b hb
        have hbound := h3 b hb
        show clock count + count < b.id
        omega
      · intro x hx
        rcases List.mem_cons.1 hx with rfl | hx
        · exact Nat.le_refl _
        · have := h3 x hx
          omega

/-- **C5 (amended)**: within a single submission the minted ids are pairwise
distinct — the k-th created item gets millisecond-clock-at-creation plus k,
which strictly increases as long as the clock does not go backwards during
the batch. (Distinctness across submissions is not guaranteed; see the
counterexample.) -/
theorem c5_batch_ids_distinct (category name product sizesInput : String)
    (stock : Int) (clock : Nat → Nat) (ts date : String) (s : AppState)
    (hmono : ∀ j k, j ≤ k → clock j ≤ clock k) :
    (∃ created,
      (step s (.createProduct category name sizesInput stock clock ts date)).inventory
        = s.inventory ++ created ∧ (created.map (fun i => i.id)).Nodup)
    ∧ (∃ created,
      (step s (.addVariant product sizesInput stock clock ts date)).inventory
        = s.inventory ++ created ∧ (created.map (fun i => i.id)).Nodup) := by
  constructor
  · simp only [step]
    split
    · obtain ⟨created, h1, h2, _⟩ := batchCreate_ids_increasing
        (fun l sz => dupNew l name sz) category name stock clock ts date
        "Created" hmono (splitSizes sizesInput) s.inventory s.history 0
      exact ⟨created, h1,
        List.pairwise_map.mpr (h2.imp fun h => Nat.ne_of_lt h)⟩
    · exact ⟨[], by simp, List.Pairwise.nil⟩
  · simp only [step]
    split
    · obtain ⟨created, h1, h2, _⟩ := batchCreate_ids_increasing
        (fun l sz => dupVar l product sz) _ product stock clock ts date
        "Created Variant" hmono (splitSizes sizesInput) s.inventory s.history 0
      exact ⟨created, h1,
        List.pairwise_map.mpr (h2.imp fun h => Nat.ne_of_lt h)⟩
    · exact ⟨[], by simp, List.Pairwise.nil⟩

/-- Concrete instance of the amended C5: a submission creating two sizes in
the same millisecond mints distinct ids. -/
theorem c5_witness :
    ∃ created,
      (step ⟨[], ["Helmets"], []⟩
          (.createProduct "Helmets" "A" "S,M" 5 (fun k => 100 + k) "t" "d")).inventory
        = [] ++ created ∧ (created.map (fun i => i.id)).Nodup :=
  (c5_batch_ids_distinct "Helmets" "A" "P" "S,M" 5 (fun k => 100 + k) "t" "d"
    ⟨[], ["Helmets"], []⟩ (fun _ _ h => Nat.add_le_add_left h 100)).1

/-- C5 as frozen is false: two separate submissions landing one millisecond
apart mint a colliding id — the first batch creates ids 100 and 101, the
second batch (clock reading 101) creates id 101 again, so the inventory ends
with two items of id 101. -/
theorem c5_counterexample :
    ¬ ((run ⟨[], ["Helmets"], []⟩
        [.createProduct "Helmets" "A" "S,M" 5 (fun _ => 100) "t1" "d1",
         .createProduct "Helmets" "B" "S" 5 (fun _ => 101) "t2" "d2"]).inventory.map
          (fun i => i.id)).Nodup := by decide

theorem length_filter_add_length_filter_not {α : Type} (l : List α)
    (p : α → Bool) :
    (l.filter p).length + (l.filter (fun a => !p a)).length = l.length := by
  induction l with
  | nil => rfl
  | cons a t ih =>
    by_cases h : p a = true
    · simp [List.filter_cons, h]
      omega
    · rw [Bool.not_eq_true] at h
      simp [List.filter_cons, h]
      omega

/-- **C3**: deleting a category removes it from the category list and
removes from the inventory exactly the items of that category — no item of
another category is dropped, none is altered, and their relative order is
preserved (the survivors form a sublist of the original inventory) — and the
reported count equals the number of items whose category was the deleted
one. -/
theorem c3_deleteCategory (cat : String) (cats : List String)
    (inv : List StockItem) (hnd : cats.Nodup) :
    cat ∉ (deleteCategoryApi cat cats inv).1
    ∧ (∀ c ∈ cats, c ≠ cat → c ∈ (deleteCategoryApi cat cats inv).1)
    ∧ List.Sublist (deleteCategoryApi cat cats inv).2.1 inv
    ∧ (∀ i ∈ inv, i.category ≠ cat → i ∈ (deleteCategoryApi cat cats inv).2.1)
    ∧ (∀ i ∈ (deleteCategoryApi cat cats inv).2.1, i.category ≠ cat ∧ i ∈ inv)
    ∧ (deleteCategoryApi cat cats inv).2.2
        = (inv.filter (fun i => i.category = cat)).length := by
  refine ⟨hnd.not_mem_erase, ?_, ?_, ?_, ?_, ?_⟩
  · intro c hc hne
    exact (List.mem_erase_of_ne hne).2 hc
  · exact List.filter_sublist inv
  · intro i hi hne
    exact List.mem_filter.2 ⟨hi, by simp [hne]⟩
  · intro i hi
    have h := List.mem_filter.1 hi
    refine ⟨by simpa using h.2, h.1⟩
  · show inv.length - (inv.filter (fun i => i.category ≠ cat)).length = _
    have hcompl := length_filter_add_length_filter_not inv
      (fun i => decide (i.category = cat))
    have hcong : inv.filter (fun i => !decide (i.category = cat))
        = inv.filter (fun i => i.category ≠ cat) := by
      refine List.filter_congr ?_
      intro i _
      simp [decide_not]
    rw [hcong] at hcompl
    omega

/-- Concrete instance of C3: deleting "Helmets" removes it from the
category list. -/
theorem c3_witness :
    "Helmets" ∉ (deleteCategoryApi "Helmets" ["Helmets", "Gloves"]
      [⟨1, "Helmets", "A", "S", 1, "d"⟩]).1 :=
  (c3_deleteCategory "Helmets" ["Helmets", "Gloves"]
    [⟨1, "Helmets", "A", "S", 1, "d"⟩] (by decide)).1

/-- **C6 (amended)**: an empty product name, an empty sizes input or an
empty category list makes the New Product handler warn and abort with no
mutation and no save, and a duplicate category name makes the Add Category
handler warn and abort likewise; but a sizes input with zero actionable
tokens (for example only commas and whitespace) is **not** treated as a
validation failure: it passes the truthiness guard, mutates nothing, and
still re-saves the unchanged inventory while reporting success with a
created count of 0. -/
theorem c6_validation (category name sizesInput : String) (stock : Int)
    (clock : Nat → Nat) (date : String) (cats : List String)
    (inv : List StockItem) (catName : String) :
    ((name = "" ∨ sizesInput = "" ∨ cats = []) →
      createProductSubmitApi category name sizesInput stock clock date cats inv
        = (inv, false, .warning))
    ∧ (catName ≠ "" → catName ∈ cats →
        addCategorySubmitApi catName cats = (cats, false, some .warning))
    ∧ (splitSizes sizesInput = [] → name ≠ "" → sizesInput ≠ "" → cats ≠ [] →
        createProductSubmitApi category name sizesInput stock clock date cats inv
          = (inv, true, .success 0)) := by
  refine ⟨?_, ?_, ?_⟩
  · intro h
    unfold createProductSubmitApi
    rw [if_neg]
    rintro ⟨h1, h2, h3⟩
    rcases h with h | h | h
    · exact h1 h
    · exact h2 h
    · exact h3 h
  · intro h1 h2
    unfold addCategorySubmitApi
    rw [if_pos h1, if_pos h2]
  · intro hz h1 h2 h3
    unfold createProductSubmitApi
    rw [if_pos ⟨h1, h2, h3⟩, hz]
    rfl

/-- Concrete instance of the amended C6: an empty product name warns and
aborts without saving. -/
theorem c6_witness :
    createProductSubmitApi "Helmets" "" "S" 5 (fun _ => 9) "d" ["Helmets"] []
      = ([], false, .warning) :=
  (c6_validation "Helmets" "" "S" 5 (fun _ => 9) "d" ["Helmets"] [] "x").1
    (Or.inl rfl)

/-- C6 as frozen is false: a sizes input of only commas and whitespace has
zero actionable sizes, yet the handler does not warn and does not abort
before persistence — it saves the (unchanged) inventory and reports
"Created 0 variants" as a success. -/
theorem c6_counterexample :
    splitSizes ",, " = []
    ∧ createProductSubmitApi "Helmets" "X" ",, " 5 (fun _ => 9) "d" ["Helmets"] []
        = ([], true, .success 0) := by decide

/-- The creation loop only ever appends to the history it was given. -/
theorem batchCreate_history (dup : List StockItem → String → Bool)
    (category name : String) (stock : Int) (clock : Nat → Nat)
    (ts date action : String) (tokens : List String) :
    ∀ (inv : List StockItem) (hist : List HistoryEntry) (count : Nat),
      ∃ tail, (batchCreate dup category name stock clock ts date action
        tokens inv hist count).2.1 = hist ++ tail := by
  induction tokens with
  | nil => intro inv hist count; exact ⟨[], by simp [batchCreate]⟩
  | cons sz rest ih =>
    intro inv hist count
    simp only [batchCreate]
    split
    · exact ih inv hist count
    · obtain ⟨tail, htail⟩ := ih
        (inv ++ [⟨clock count + count, category, name, sz, stock, date⟩])
        (appendHistory hist [⟨ts, name, sz, action, stock, stock⟩]) (count + 1)
      refine ⟨⟨ts, name, sz, action, stock, stock⟩ :: tail, ?_⟩
      rw [htail, appendHistory_eq]
      simp

/-- **C7**: the history is append-only. `log_history` against a loadable
history file appends exactly the one new record after all existing ones;
against a missing or unloadable file it starts from the empty history; and
no dashboard action ever removes or alters recorded entries — every action's
resulting history is the prior history with zero or more entries appended. -/
theorem c7_history_append_only :
    (∀ (h : List HistoryEntry) (e : HistoryEntry),
      logHistoryFile (some h) e = h ++ [e])
    ∧ (∀ e : HistoryEntry, logHistoryFile none e = [e])
    ∧ ∀ (s : AppState) (op : Op),
        ∃ tail, (step s op).history = s.history ++ tail := by
  refine ⟨fun h e => rfl, fun e => rfl, ?_⟩
  intro s op
  cases op with
  | createProduct category name sizesInput stock clock ts date =>
    simp only [step]
    split
    · exact batchCreate_history _ _ _ _ _ _ _ _ _ _ _ _
    · exact ⟨[], by simp⟩
  | addVariant product sizesInput stock clock ts date =>
    simp only [step]
    split
    · exact batchCreate_history _ _ _ _ _ _ _ _ _ _ _ _
    · exact ⟨[], by simp⟩
  | increment itemId rowName rowSize ts =>
    exact ⟨_, by simp only [step]; rw [appendHistory_eq]⟩
  | decrement itemId rowName rowSize ts =>
    exact ⟨_, by simp only [step]; rw [appendHistory_eq]⟩
  | deleteVariant itemId rowName rowSize ts =>
    exact ⟨_, by simp only [step]; rw [appendHistory_eq]⟩
  | deleteProduct name ts =>
    exact ⟨_, by simp only [step]; rw [appendHistory_eq]⟩
  | addCategory name =>
    simp only [step]
    split
    · exact ⟨[], by simp⟩
    · exact ⟨[], by simp⟩
  | deleteCategory name =>
    exact ⟨[], by simp [step]⟩

/-- Concrete instance of C1: an item with stock 0 — its decrement is a
perfect no-op, state included. -/
theorem c1_witness :
    step ⟨[⟨7, "Helmets", "H", "M", 0, "d"⟩], ["Helmets"], []⟩
        (.decrement 7 "H" "M" "t")
      = ⟨[⟨7, "Helmets", "H", "M", 0, "d"⟩], ["Helmets"], []⟩ :=
  (c1_stock_invariant_and_adjust
    ⟨[⟨7, "Helmets", "H", "M", 0, "d"⟩], ["Helmets"], []⟩ [] 7 "H" "M" "t"
    (by decide) (by decide) (by decide)).2.2

/-! ## The grouped dashboard view -/

theorem insertById_perm (x : StockItem) (l : List StockItem) :
    (insertById x l).Perm (x :: l) := by
  induction l with
  | nil => exact List.Perm.refl _
  | cons y ys ih =>
    simp only [insertById]
    split
    · exact List.Perm.refl _
    · exact (List.Perm.cons y ih).trans (List.Perm.swap x y ys)

theorem sortById_perm (l : List StockItem) : (sortById l).Perm l := by
  induction l with
  | nil => exact List.Perm.refl _
  | cons x xs ih =>
    exact (insertById_perm x (sortById xs)).trans (List.Perm.cons x ih)

theorem insertById_pairwise (x : StockItem) (l : List StockItem)
    (h : List.Pairwise (fun a b => a.id ≤ b.id) l) :
    List.Pairwise (fun a b => a.id ≤ b.id) (insertById x l) := by
  induction l with
  | nil => simp [insertById]
  | cons y ys ih =>
    rw [List.pairwise_cons] at h
    obtain ⟨hy, hys⟩ := h
    simp only [insertById]
    split
    · rename_i hlt
      refine List.Pairwise.cons ?_ (List.Pairwise.cons hy hys)
      intro b hb
      rcases List.mem_cons.1 hb with rfl | hb
      · omega
      · have := hy b hb
        omega
    · rename_i hnlt
      refine List.Pairwise.cons ?_ (ih hys)
      intro b hb
      have hb2 : b ∈ x :: ys := (insertById_perm x ys).mem_iff.1 hb
      rcases List.mem_cons.1 hb2 with rfl | hb2
      · omega
      · exact hy b hb2

theorem sortById_pairwise (l : List StockItem) :
    List.Pairwise (fun a b => a.id ≤ b.id) (sortById l) := by
  induction l with
  | nil => exact List.Pairwise.nil
  | cons x xs ih => exact insertById_pairwise x (sortById xs) ih

/-- The two nested dashboard filters compose into one conjunction. -/
theorem filter_category_name (items : List StockItem) (cat n : String) :
    (items.filter (fun i => i.category = cat)).filter (fun i => i.name = n)
      = items.filter (fun i => i.category = cat ∧ i.name = n) := by
  rw [List.filter_filter]
  refine List.filter_congr ?_
  intro i _
  simp [Bool.and_comm]

/-- **C8**: the grouped dashboard lists categories in first-seen order; each
category lists its product names in first-seen order; each product card's
variant rows are exactly the inventory items of that category and product
name (a permutation of that filter), ordered by ascending id; and the
displayed total stock equals the sum of stock over exactly those variants. -/
theorem c8_groupedView (items : List StockItem) :
    ((groupedView items).map Prod.fst
      = firstSeen (items.map (fun i => i.category)))
    ∧ ∀ p ∈ groupedView items,
        (p.2.map Prod.fst
          = firstSeen ((items.filter (fun i => i.category = p.1)).map
              (fun i => i.name)))
        ∧ ∀ g ∈ p.2,
            g.2.1.Perm (items.filter (fun i => i.category = p.1 ∧ i.name = g.1))
            ∧ List.Pairwise (fun a b => a.id ≤ b.id) g.2.1
            ∧ g.2.2 = ((items.filter (fun i => i.category = p.1 ∧ i.name = g.1)).map
                (fun i => i.stock)).sum := by
  constructor
  · unfold groupedView
    rw [List.map_map]
    rw [show (Prod.fst ∘ fun cat =>
        (cat, (firstSeen ((items.filter (fun i => i.category = cat)).map
          (fun i => i.name))).map
            (productGroup (items.filter (fun i => i.category = cat)))))
      = id from rfl]
    exact List.map_id _
  · intro p hp
    obtain ⟨cat, hcat, rfl⟩ := List.mem_map.1 hp
    constructor
    · rw [List.map_map]
      rw [show (Prod.fst ∘ productGroup (items.filter (fun i => i.category = cat)))
        = id from rfl]
      exact List.map_id _
    · intro g hg
      obtain ⟨n, hn, rfl⟩ := List.mem_map.1 hg
      refine ⟨?_, ?_, ?_⟩
      · show (sortById ((items.filter (fun i => i.category = cat)).filter
          (fun i => i.name = n))).Perm _
        rw [filter_category_name]
        exact sortById_perm _
      · exact sortById_pairwise _
      · show ((sortById ((items.filter (fun i => i.category = cat)).filter
            (fun i => i.name = n))).map (fun i => i.stock)).sum = _
        rw [filter_category_name]
        exact ((sortById_perm _).map (fun i => i.stock)).sum_eq

/-- Concrete instance of C8: two variants of one product — the displayed
total 20 is the sum of stock over exactly that product's variants. -/
theorem c8_witness :
    (20 : Int) = ((([⟨1, "Helmets", "H", "S", 10, "d"⟩,
        ⟨2, "Helmets", "H", "M", 10, "d"⟩] : List StockItem).filter
      (fun i => i.category = "Helmets" ∧ i.name = "H")).map
        (fun i => i.stock)).sum :=
  (((c8_groupedView [⟨1, "Helmets", "H", "S", 10, "d"⟩,
      ⟨2, "Helmets", "H", "M", 10, "d"⟩]).2
    ("Helmets", [("H", [⟨1, "Helmets", "H", "S", 10, "d"⟩,
      ⟨2, "Helmets", "H", "M", 10, "d"⟩], 20)]) (by decide)).2
    ("H", [⟨1, "Helmets", "H", "S", 10, "d"⟩,
      ⟨2, "Helmets", "H", "M", 10, "d"⟩], 20) (by decide)).2.2

/-! ## Search -/

/-- **C9 (amended)**: a non-empty query keeps exactly the rows whose
whole-row string form — field labels and values together, as `str` of a
pandas row renders them — contains the lower-cased query case-insensitively,
preserving their order; an empty query keeps every item. Because the match
runs over the whole row string and not over the individual field values, a
query can also hit a field label (or text spanning fields), which the
counterexample exhibits. -/
theorem c9_searchFilter (q : String) (items : List StockItem) :
    searchFilter "" items = items
    ∧ List.Sublist (searchFilter q items) items
    ∧ ∀ i, i ∈ searchFilter q items ↔
        i ∈ items ∧ (q = "" ∨ strContains (lowerStr (rowStr i)) (lowerStr q) = true) := by
  refine ⟨rfl, ?_, ?_⟩
  · unfold searchFilter
    split
    · exact List.Sublist.refl _
    · exact List.filter_sublist _
  · intro i
    unfold searchFilter
    split
    · rename_i h
      simp [h]
    · rename_i h
      rw [List.mem_filter]
      simp [h]

/-- Concrete instance of the amended C9: the empty query keeps everything. -/
theorem c9_witness :
    searchFilter "" [⟨1, "Gloves", "Belt", "M", 2, "2024-01-01"⟩]
      = [⟨1, "Gloves", "Belt", "M", 2, "2024-01-01"⟩] :=
  (c9_searchFilter "" [⟨1, "Gloves", "Belt", "M", 2, "2024-01-01"⟩]).1

/-- C9 as frozen is false: no field of the item ⟨1, "Gloves", "Belt", "M",
2, "2024-01-01"⟩ contains "size" — the spec's match-some-field rule drops
it — yet the code keeps it, because the row's string form contains the field
label "size". -/
theorem c9_counterexample :
    searchFilter "size" [⟨1, "Gloves", "Belt", "M", 2, "2024-01-01"⟩]
      = [⟨1, "Gloves", "Belt", "M", 2, "2024-01-01"⟩]
    ∧ specFieldMatch "size" ⟨1, "Gloves", "Belt", "M", 2, "2024-01-01"⟩
        = false := by decide

/-! ## Adjusting and deleting by id -/

theorem countP_id_le_one (l : List StockItem) (itemId : Nat)
    (h : (l.map (fun i => i.id)).Nodup) :
    l.countP (fun i => i.id == itemId) ≤ 1 := by
  induction l with
  | nil => simp
  | cons a t ih =>
    rw [List.map_cons, List.nodup_cons] at h
    obtain ⟨ha, ht⟩ := h
    by_cases hp : (a.id == itemId) = true
    · have hz : t.countP (fun i => i.id == itemId) = 0 := by
        rw [List.countP_eq_zero]
        intro x hx hxx
        rw [beq_iff_eq] at hp hxx
        exact ha (List.mem_map.2 ⟨x, hx, by rw [hxx, hp]⟩)
      rw [List.countP_cons]
      simp only [hp, if_true]
      omega
    · rw [Bool.not_eq_true] at hp
      rw [List.countP_cons]
      simp only [hp, Bool.false_eq_true, if_false]
      have := ih ht
      omega

/-- **C10**: the increment, decrement and delete-variant buttons act on
every inventory item whose id equals the clicked row's id — all matching
items are adjusted or removed, while every non-matching item survives
unchanged in order — and when ids are unique at most one item can match, so
exactly the (at most one) matching item is affected. -/
theorem c10_adjust_delete_by_id (s : AppState) (itemId : Nat)
    (rn rs ts : String) :
    (∀ i ∈ s.inventory, i.id = itemId →
      { i with stock := i.stock + 1 }
        ∈ (step s (.increment itemId rn rs ts)).inventory)
    ∧ (∀ i ∈ s.inventory, i.id = itemId → 0 < i.stock →
      { i with stock := i.stock - 1 }
        ∈ (step s (.decrement itemId rn rs ts)).inventory)
    ∧ (∀ i ∈ s.inventory, i.id ≠ itemId →
        i ∈ (step s (.increment itemId rn rs ts)).inventory
        ∧ i ∈ (step s (.decrement itemId rn rs ts)).inventory
        ∧ i ∈ (step s (.deleteVariant itemId rn rs ts)).inventory)
    ∧ (∀ i ∈ (step s (.deleteVariant itemId rn rs ts)).inventory, i.id ≠ itemId)
    ∧ List.Sublist (step s (.deleteVariant itemId rn rs ts)).inventory s.inventory
    ∧ (step s (.deleteVariant itemId rn rs ts)).inventory.length
        + s.inventory.countP (fun i => i.id == itemId) = s.inventory.length
    ∧ ((s.inventory.map (fun i => i.id)).Nodup →
        s.inventory.countP (fun i => i.id == itemId) ≤ 1) := by
  refine ⟨?_, ?_, ?_, ?_, ?_, ?_, countP_id_le_one s.inventory itemId⟩
  · intro i hi hid
    simp only [step, List.mem_map]
    exact ⟨i, hi, by rw [if_pos hid]⟩
  · intro i hi hid hpos
    simp only [step, List.mem_map]
    exact ⟨i, hi, by rw [if_pos ⟨hid, hpos⟩]⟩
  · intro i hi hne
    refine ⟨?_, ?_, ?_⟩
    · simp only [step, List.mem_map]
      exact ⟨i, hi, by rw [if_neg hne]⟩
    · simp only [step, List.mem_map]
      exact ⟨i, hi, by rw [if_neg (fun hc => hne hc.1)]⟩
    · simp only [step]
      exact List.mem_filter.2 ⟨hi, by simp [hne]⟩
  · intro i hi
    simp only [step, List.mem_filter] at hi
    simpa using hi.2
  · simp only [step]
    exact List.filter_sublist _
  · simp only [step]
    rw [List.countP_eq_length_filter]
    have hcompl := length_filter_add_length_filter_not s.inventory
      (fun i => i.id == itemId)
    have hcong : s.inventory.filter (fun i => !(i.id == itemId))
        = s.inventory.filter (fun i => i.id ≠ itemId) := by
      refine List.filter_congr ?_
      intro i _
      by_cases h : i.id = itemId
      · simp [h]
      · simp [h]
    rw [hcong] at hcompl
    omega

/-- Concrete instance of C10: with two items sharing id 5, one increment
click raises both — here the second matching item's stock goes from 2 to
3. -/
theorem c10_witness :
    ({ id := 5, category := "C", name := "N", size := "M", stock := 3,
        last_updated := "d" } : StockItem)
      ∈ (step ⟨[⟨5, "C", "N", "S", 1, "d"⟩, ⟨5, "C", "N", "M", 2, "d"⟩], [], []⟩
          (.increment 5 "N" "S" "t")).inventory :=
  (c10_adjust_delete_by_id
    ⟨[⟨5, "C", "N", "S", 1, "d"⟩, ⟨5, "C", "N", "M", 2, "d"⟩], [], []⟩
    5 "N" "S" "t").1 ⟨5, "C", "N", "M", 2, "d"⟩ (by decide) rfl
